import Mathlib

/-!
Verification of the core of the Caelus Python library: the schema-backed
dictionary-file model (`caelus/io/dictfile.py`) and the CML
version/environment resolver (`caelus/config/cmlenv.py`), shallowly
embedded in Lean.  File-system state and external collaborators (the
text parser, the user configuration) are passed explicitly as
parameters, so every definition is executable.
-/

namespace Caelus

/-- Values stored in a `CaelusDict`: strings, numbers, booleans and
nested dictionaries (the ordered key/value container used throughout
`dictfile.py`). -/
inductive CValue where
  | str : String → CValue
  | num : Nat → CValue
  | boolv : Bool → CValue
  | dict : List (String × CValue) → CValue

/-- The ordered dictionary (`CaelusDict`) modelled as an association
list with Python `dict` update semantics. -/
abbrev CDict := List (String × CValue)

/-- `d[k]` lookup: the first (unique) binding of `k`, `None` if absent
(this is `data.get(name, None)` as used by the generated getters). -/
def assocGet? : List (String × α) → String → Option α
  | [], _ => none
  | p :: ps, k => if p.1 = k then some p.2 else assocGet? ps k

/-- `d[k] = v`: replace the binding in place, or append a new one at the
end (Python `dict` assignment keeps insertion order). -/
def assocSet : List (String × α) → String → α → List (String × α)
  | [], k, v => [(k, v)]
  | p :: ps, k, v => if p.1 = k then (k, v) :: ps else p :: assocSet ps k v

/-- `k in d`. -/
def assocHas (l : List (String × α)) (k : String) : Bool :=
  (assocGet? l k).isSome

/-- The removal part of `d.pop(k, None)`. -/
def assocErase : List (String × α) → String → List (String × α)
  | [], _ => []
  | p :: ps, k => if p.1 = k then ps else p :: assocErase ps k

theorem assocGet?_set_self (l : List (String × α)) (k : String) (v : α) :
    assocGet? (assocSet l k v) k = some v := by
  induction l with
  | nil => simp [assocSet, assocGet?]
  | cons p ps ih =>
    by_cases h : p.1 = k
    · simp [assocSet, assocGet?, h]
    · simp [assocSet, assocGet?, h, ih]

theorem assocGet?_set_ne (l : List (String × α)) (k k' : String) (v : α)
    (h : k' ≠ k) : assocGet? (assocSet l k v) k' = assocGet? l k' := by
  induction l with
  | nil => simp [assocSet, assocGet?, Ne.symm h]
  | cons p ps ih =>
    by_cases hp : p.1 = k
    · subst hp
      simp [assocSet, assocGet?, Ne.symm h]
    · by_cases hp' : p.1 = k'
      · simp [assocSet, assocGet?, hp, hp', h]
      · simp [assocSet, assocGet?, hp, hp', h, ih]

theorem assocErase_of_none (l : List (String × α)) (k : String)
    (h : assocGet? l k = none) : assocErase l k = l := by
  induction l with
  | nil => simp [assocErase]
  | cons p ps ih =>
    by_cases hp : p.1 = k
    · simp [assocGet?, hp] at h
    · simp [assocGet?, hp] at h
      simp [assocErase, hp, ih h]

theorem assocGet?_of_mem_keys (l : List (String × α)) (k : String)
    (h : k ∈ l.map Prod.fst) : ∃ v, assocGet? l k = some v := by
  induction l with
  | nil => simp at h
  | cons p ps ih =>
    by_cases hp : p.1 = k
    · exact ⟨p.2, by simp [assocGet?, hp]⟩
    · have h2 : k = p.1 ∨ k ∈ ps.map Prod.fst := by simpa using h
      rcases h2 with h2 | h2
      · exact absurd h2.symm hp
      · rcases ih h2 with ⟨v, hv⟩
        exact ⟨v, by simp [assocGet?, hp, hv]⟩

/-! ## Schema compiler (`DictMeta.process_property`)

A field specification is `(name, default, options?)`.  The generated
setter validates against the allowed-value tuple when one is present
(and truthy, i.e. non-empty); the generated getter is
`data.get(name, None)`.  A raised `ValueError` is modelled as a result
that carries the error and leaves the container untouched (the source
raises before any mutation). -/

inductive DictErr where
  | invalidValue
deriving DecidableEq

/-- Generated getter: `self.data.get(name, None)`. -/
def propGet (name : String) (d : List (String × β)) : Option β :=
  assocGet? d name

/-- Generated setter.  `options = None` and an empty tuple are both
falsy in the source (`if options:`), selecting the non-validating
variant. -/
def propSet [BEq β] (options : Option (List β)) (name : String)
    (d : List (String × β)) (v : β) : List (String × β) × Option DictErr :=
  match options with
  | some opts =>
    if opts.isEmpty then (assocSet d name v, none)
    else if opts.contains v then (assocSet d name v, none)
    else (d, some .invalidValue)
  | none => (assocSet d name v, none)

/-! ## Turbulence model files (`TurbModelProps`, `LESProperties`)

`_model_name` is the literal `"NONE"` for every concrete turbulence
file type in the source (no subclass overrides it). -/

/-- The `coeffs` property getter: reads `data[_model_name]`, appends
`"Coeffs"`, and materializes an empty nested dictionary when absent.
`none` models the `KeyError`/`TypeError` raised when the model entry is
unset or not a string. -/
def coeffsGet (modelName : String) (d : CDict) : Option (CDict × CValue) :=
  match assocGet? d modelName with
  | some (.str m) =>
    let key := m ++ "Coeffs"
    match assocGet? d key with
    | some v => some (d, v)
    | none => some (assocSet d key (.dict []), .dict [])
  | _ => none

/-- The `model` property setter: stores the value under `_model_name`
and then touches `self.coeffs` to trigger generation of the coefficient
dictionary.  After storing a string the coefficient access cannot fail,
so the fallback arm is unreachable. -/
def setModel (modelName : String) (d : CDict) (value : String) : CDict :=
  let d1 := assocSet d modelName (.str value)
  match coeffsGet modelName d1 with
  | some (d2, _) => d2
  | none => d1

/-- The `LESProperties.delta` setter: stores `delta`, then creates
`<value>Coeffs` when absent — pre-populated with `deltaCoeff = 1`
exactly when the value is `"cubeRootVol"`, empty otherwise. -/
def setDelta (d : CDict) (value : String) : CDict :=
  let d1 := assocSet d "delta" (.str value)
  let key := value ++ "Coeffs"
  if assocHas d1 key then d1
  else
    assocSet d1 key
      (.dict (if value = "cubeRootVol" then [("deltaCoeff", .num 1)] else []))

/-- `TurbModelProps.create_default_entries` as generated by the
metaclass from `_dict_properties`: writes the non-null defaults into
the data container directly. -/
def turbModelDefaults (d : CDict) : CDict :=
  assocSet (assocSet d "turbulence" (.str "on")) "printCoeffs" (.str "on")

/-- A freshly constructed `LESProperties` data container: base defaults
followed by `self.delta = "cubeRootVol"` through the setter. -/
def lesFresh : CDict :=
  setDelta (turbModelDefaults []) "cubeRootVol"

/-! ## `DictFile` headers and loading -/

/-- Split a character list at every occurrence of the separator
(`str.split(sep)` for a one-character separator, structurally
recursive so that the kernel can evaluate it). -/
def splitOnChar (c : Char) : List Char → List (List Char)
  | [] => [[]]
  | x :: xs =>
    match splitOnChar c xs with
    | [] => if x = c then [[], []] else [[x]]
    | y :: ys => if x = c then [] :: y :: ys else (x :: y) :: ys

/-- Join character lists with a separator (`sep.join(parts)`). -/
def joinWithChar (c : Char) : List (List Char) → List Char
  | [] => []
  | x :: xs =>
    match xs with
    | [] => x
    | _ :: _ => x ++ c :: joinWithChar c xs

/-- `os.path.basename` for POSIX paths without trailing separators. -/
def basename (p : String) : String :=
  String.mk (((splitOnChar '/' p.toList).getLast?).getD [])

/-- `os.path.dirname` for POSIX paths without trailing separators. -/
def dirname (p : String) : String :=
  String.mk (joinWithChar '/' ((splitOnChar '/' p.toList).dropLast))

/-- `DictFile.create_header`: the three constants, `location` when the
filename has a directory component, and `object` from the basename. -/
def create_header (filename : String) : CDict :=
  let obj := basename filename
  let location := dirname filename
  let d : CDict :=
    [("version", .str "2.0"), ("format", .str "ascii"),
     ("class", .str "dictionary")]
  let d := if location ≠ "" then
    assocSet d "location" (.str ("\"" ++ location ++ "\"")) else d
  assocSet d "object" (.str ("\"" ++ obj ++ "\""))

/-- Python truthiness of a dictionary value (`if header:` in `load`). -/
def truthy : CValue → Bool
  | .str s => !(s.isEmpty)
  | .num n => n != 0
  | .boolv b => b
  | .dict d => !(d.isEmpty)

/-- `DictFile._size_limit = 10 * (1 << 20)`. -/
def sizeLimit : Nat := 10 * (1 <<< 20)

/-- Result object of `DictFile.load`: filename, the `FoamFile` header
(or `None`), and the remaining top-level entries. -/
structure DictObj where
  filename : String
  header : Option CValue
  data : CDict

/-- `IOError` raised for a missing file. -/
inductive LoadErr where
  | fileNotFound
deriving DecidableEq

/-- `DictFile.load` outcome plus observation flags: whether the
external parser was invoked and whether the oversize warning fired. -/
structure LoadResult where
  obj : DictObj
  parserInvoked : Bool
  warned : Bool

/-- `DictFile.load`, with the file system (`fsExists`, `fsSize`) and
the external parser passed explicitly.  Follows the source: existence
check, size guard (warn and skip parsing), otherwise parse and pop the
reserved `FoamFile` key; the header is the popped value when truthy,
else a fresh default header only when no parse was attempted, else
`None`. -/
def DictFile.load (defaultFilename : String) (filename : Option String)
    (fsExists : String → Bool) (fsSize : String → Nat)
    (parse : String → CDict) : Except LoadErr LoadResult :=
  let name := match filename with
    | some f => if f = "" then defaultFilename else f
    | none => defaultFilename
  if fsExists name = false then .error .fileNotFound
  else if sizeLimit < fsSize name then
    .ok ⟨⟨name, some (.dict (create_header name)), []⟩, false, true⟩
  else
    let parsed := parse name
    let hdr := assocGet? parsed "FoamFile"
    let entries := assocErase parsed "FoamFile"
    let headerField : Option CValue :=
      match hdr with
      | some h => if truthy h then some h else none
      | none => none
    .ok ⟨⟨name, headerField, entries⟩, true, false⟩

/-! ## Helper lemmas for the turbulence setters -/

theorem coeffsKey_ne_delta (v : String) : v ++ "Coeffs" ≠ "delta" := by
  intro h
  have hl : (v ++ "Coeffs").length = ("delta" : String).length :=
    congrArg String.length h
  rw [String.length_append] at hl
  have h6 : ("Coeffs" : String).length = 6 := rfl
  have h5 : ("delta" : String).length = 5 := rfl
  rw [h6, h5] at hl
  omega

theorem setModel_eq (mn : String) (d : CDict) (v : String)
    (hne : v ++ "Coeffs" ≠ mn)
    (habs : assocGet? d (v ++ "Coeffs") = none) :
    setModel mn d v =
      assocSet (assocSet d mn (.str v)) (v ++ "Coeffs") (.dict []) := by
  have h1 : assocGet? (assocSet d mn (.str v)) mn = some (.str v) :=
    assocGet?_set_self d mn (CValue.str v)
  have h2 : assocGet? (assocSet d mn (.str v)) (v ++ "Coeffs") = none := by
    rw [assocGet?_set_ne d mn (v ++ "Coeffs") _ hne, habs]
  simp [setModel, coeffsGet, h1, h2]

/-! ## Claims about the dictionary-file component -/

/-- C5: for every field specification with a non-null (and non-empty)
allowed-value set, the generated setter stores an in-set value — and
the generated getter then returns exactly that value — while an
out-of-set value raises `InvalidValue` (`ValueError`) and leaves the
data container completely unchanged. -/
theorem c5_allowed_values {β : Type} [BEq β] (opts : List β) (name : String)
    (d : List (String × β)) (v : β) (hne : opts ≠ []) :
    (opts.contains v = true →
       propSet (some opts) name d v = (assocSet d name v, none) ∧
       propGet name (assocSet d name v) = some v) ∧
    (opts.contains v = false →
       propSet (some opts) name d v = (d, some .invalidValue)) := by
  have hE : opts.isEmpty = false := by
    cases opts with
    | nil => exact absurd rfl hne
    | cons a as => rfl
  constructor
  · intro hc
    exact ⟨by simp [propSet, hE, hc], assocGet?_set_self d name v⟩
  · intro hc
    simp [propSet, hE, hc]

theorem c5_witness :
    (propSet (some ["ascii", "binary"]) "writeFormat"
        ([] : List (String × String)) "ascii"
        = (assocSet [] "writeFormat" "ascii", none) ∧
     propGet "writeFormat"
        (assocSet ([] : List (String × String)) "writeFormat" "ascii")
        = some "ascii") ∧
    propSet (some ["ascii", "binary"]) "writeFormat"
        ([] : List (String × String)) "utf8"
        = ([], some .invalidValue) :=
  ⟨(c5_allowed_values ["ascii", "binary"] "writeFormat" [] "ascii"
      (by decide)).1 (by decide),
   (c5_allowed_values ["ascii", "binary"] "writeFormat" [] "utf8"
      (by decide)).2 (by decide)⟩

/-- C9: on a turbulence-model file, setting `model = "kOmegaSST"`
creates the nested `kOmegaSSTCoeffs` block as an empty container, and
subsequently setting `model = "kEpsilon"` creates `kEpsilonCoeffs`
while leaving the previously created `kOmegaSSTCoeffs` in place (stale
coefficient blocks are never pruned on reassignment). -/
theorem c9_stale_coeff_blocks (d : CDict)
    (h1 : assocGet? d "kOmegaSSTCoeffs" = none)
    (h2 : assocGet? d "kEpsilonCoeffs" = none) :
    assocGet? (setModel "NONE" d "kOmegaSST") "kOmegaSSTCoeffs"
        = some (.dict []) ∧
    assocGet? (setModel "NONE" (setModel "NONE" d "kOmegaSST") "kEpsilon")
        "kEpsilonCoeffs" = some (.dict []) ∧
    assocGet? (setModel "NONE" (setModel "NONE" d "kOmegaSST") "kEpsilon")
        "kOmegaSSTCoeffs" = some (.dict []) := by
  have key1 : "kOmegaSST" ++ "Coeffs" = "kOmegaSSTCoeffs" := rfl
  have key2 : "kEpsilon" ++ "Coeffs" = "kEpsilonCoeffs" := rfl
  have e1 : setModel "NONE" d "kOmegaSST" =
      assocSet (assocSet d "NONE" (.str "kOmegaSST")) "kOmegaSSTCoeffs"
        (.dict []) := by
    have := setModel_eq "NONE" d "kOmegaSST" (by rw [key1]; decide)
      (by rw [key1]; exact h1)
    rw [key1] at this
    exact this
  have hd1 : assocGet? (setModel "NONE" d "kOmegaSST") "kOmegaSSTCoeffs"
      = some (.dict []) := by
    rw [e1]
    exact assocGet?_set_self _ _ _
  have habs2 : assocGet? (setModel "NONE" d "kOmegaSST") "kEpsilonCoeffs"
      = none := by
    rw [e1, assocGet?_set_ne _ _ _ _ (by decide),
        assocGet?_set_ne _ _ _ _ (by decide), h2]
  have e2 : setModel "NONE" (setModel "NONE" d "kOmegaSST") "kEpsilon" =
      assocSet (assocSet (setModel "NONE" d "kOmegaSST") "NONE"
        (.str "kEpsilon")) "kEpsilonCoeffs" (.dict []) := by
    have := setModel_eq "NONE" (setModel "NONE" d "kOmegaSST") "kEpsilon"
      (by rw [key2]; decide) (by rw [key2]; exact habs2)
    rw [key2] at this
    exact this
  refine ⟨hd1, ?_, ?_⟩
  · rw [e2]
    exact assocGet?_set_self _ _ _
  · rw [e2, assocGet?_set_ne _ _ _ _ (by decide),
        assocGet?_set_ne _ _ _ _ (by decide)]
    exact hd1

theorem c9_witness :
    assocGet? (setModel "NONE" [] "kOmegaSST") "kOmegaSSTCoeffs"
        = some (.dict []) ∧
    assocGet? (setModel "NONE" (setModel "NONE" [] "kOmegaSST") "kEpsilon")
        "kEpsilonCoeffs" = some (.dict []) ∧
    assocGet? (setModel "NONE" (setModel "NONE" [] "kOmegaSST") "kEpsilon")
        "kOmegaSSTCoeffs" = some (.dict []) :=
  c9_stale_coeff_blocks [] rfl rfl

/-- C10: a fresh `LESProperties` file has `delta = "cubeRootVol"` with
`cubeRootVolCoeffs = (deltaCoeff, 1)`, while setting `delta` to any
other value (for instance `"vanDriest"`) produces an empty
`<value>Coeffs` block; the pre-populated coefficient applies exactly to
the value `"cubeRootVol"` and to no other. -/
theorem c10_delta_defaults (v : String) (d : CDict)
    (hv : v ≠ "cubeRootVol")
    (hk : assocGet? d (v ++ "Coeffs") = none) :
    assocGet? lesFresh "delta" = some (.str "cubeRootVol") ∧
    assocGet? lesFresh "cubeRootVolCoeffs"
        = some (.dict [("deltaCoeff", .num 1)]) ∧
    assocGet? (setDelta d v) (v ++ "Coeffs") = some (.dict []) ∧
    assocGet? (setDelta lesFresh "vanDriest") "vanDriestCoeffs"
        = some (.dict []) := by
  have hkd := coeffsKey_ne_delta v
  have hget : assocGet? (assocSet d "delta" (.str v)) (v ++ "Coeffs")
      = none := by
    rw [assocGet?_set_ne d "delta" (v ++ "Coeffs") _ hkd, hk]
  have hhas : assocHas (assocSet d "delta" (.str v)) (v ++ "Coeffs")
      = false := by
    simp [assocHas, hget]
  refine ⟨rfl, rfl, ?_, rfl⟩
  simp [setDelta, hhas, hv, assocGet?_set_self]

theorem c10_witness :
    assocGet? lesFresh "delta" = some (.str "cubeRootVol") ∧
    assocGet? lesFresh "cubeRootVolCoeffs"
        = some (.dict [("deltaCoeff", .num 1)]) ∧
    assocGet? (setDelta [] "vanDriest") ("vanDriest" ++ "Coeffs")
        = some (.dict []) ∧
    assocGet? (setDelta lesFresh "vanDriest") "vanDriestCoeffs"
        = some (.dict []) :=
  c10_delta_defaults "vanDriest" [] (by decide) rfl

/-- C8: loading an existing file whose size exceeds the 10 MiB limit
raises no error: it logs a warning and returns an object with empty
data and a fresh default header, without invoking the external parser
(the result does not depend on `parse` at all). -/
theorem c8_oversize_load (defaultFilename name : String)
    (fsExists : String → Bool) (fsSize : String → Nat)
    (parse : String → CDict)
    (hname : name ≠ "") (hex : fsExists name = true)
    (hsz : sizeLimit < fsSize name) :
    DictFile.load defaultFilename (some name) fsExists fsSize parse =
      .ok ⟨⟨name, some (.dict (create_header name)), []⟩, false, true⟩ := by
  simp [DictFile.load, hname, hex, hsz]

theorem c8_witness :
    DictFile.load "dictionary" (some "0/U") (fun _ => true)
        (fun _ => 10485761) (fun _ => []) =
      .ok ⟨⟨"0/U", some (.dict (create_header "0/U")), []⟩, false, true⟩ :=
  c8_oversize_load "dictionary" "0/U" _ _ _ (by decide) rfl (by decide)

/-- C2 counterexample: a small file whose parsed entries contain no
`FoamFile` key.  `load` returns a `None` header — not the fresh default
header that the claim requires (`need_default_header` is cleared on the
parse path, so the default header is never substituted there). -/
theorem c2_counterexample :
    DictFile.load "system/controlDict" none (fun _ => true) (fun _ => 100)
        (fun _ => [("application", CValue.str "pisoSolver")]) =
      .ok ⟨⟨"system/controlDict", none,
            [("application", CValue.str "pisoSolver")]⟩, true, false⟩ ∧
    (none : Option CValue)
        ≠ some (.dict (create_header "system/controlDict")) := by
  exact ⟨rfl, by simp⟩

/-- C2 (amended): for every file within the size limit whose parsed
top-level entries contain no reserved `FoamFile` key, `load` returns an
object whose header is `None` (not a fresh default header) and whose
data is the full set of parsed top-level entries. -/
theorem c2_amended_header_none (defaultFilename name : String)
    (fsExists : String → Bool) (fsSize : String → Nat)
    (parse : String → CDict)
    (hname : name ≠ "") (hex : fsExists name = true)
    (hsz : ¬ sizeLimit < fsSize name)
    (hnf : assocGet? (parse name) "FoamFile" = none) :
    DictFile.load defaultFilename (some name) fsExists fsSize parse =
      .ok ⟨⟨name, none, parse name⟩, true, false⟩ := by
  simp [DictFile.load, hname, hex, hsz, hnf, assocErase_of_none _ _ hnf]

theorem c2_amended_witness :
    DictFile.load "system/controlDict" (some "system/controlDict")
        (fun _ => true) (fun _ => 100)
        (fun _ => [("application", CValue.str "pisoSolver")]) =
      .ok ⟨⟨"system/controlDict", none,
            [("application", CValue.str "pisoSolver")]⟩, true, false⟩ :=
  c2_amended_header_none _ _ _ _ _ (by decide) rfl (by decide) rfl

/-! ## Version/environment resolver (`cmlenv.py`)

The file system is again passed explicitly: `fsExists` for
`os.path.exists` and `globCaelusDirs` for the result of
`glob.glob(os.path.join(root, "caelus-*"))`. -/

/-- One entry of `cfg.caelus.caelus_cml.versions` (a `CaelusCfg`):
optional `version` id (already coerced to string) and optional explicit
`path`. -/
structure ConfigEntry where
  version : Option String
  path : Option String
deriving DecidableEq

/-- The part of a `CMLEnv` object relevant to the registry claims:
the version id and the project directory. -/
structure CMLEnv where
  version : String
  projectDir : String
deriving DecidableEq

/-- `discover_versions`: for each directory matched by the glob, the
version id is the text after the last `-` of the basename (`split("-")`
never yields an empty list, so every match produces an entry). -/
def discoverVersions (globCaelusDirs : List String) : List ConfigEntry :=
  globCaelusDirs.filterMap fun cpath =>
    let bname := basename cpath
    let tmp := splitOnChar '-' bname.toList
    match tmp.getLast? with
    | some version => some ⟨some (String.mk version), some cpath⟩
    | none => none

/-- `_filter_invalid_versions`: keep entries that carry a version id
and whose resolved directory (`path`, or `root/caelus-<id>`) exists. -/
def filterInvalidVersions (fsExists : String → Bool) (root : String)
    (entries : List ConfigEntry) : List ConfigEntry :=
  entries.filter fun e =>
    match e.version with
    | none => false
    | some vid => fsExists (e.path.getD (root ++ "/caelus-" ++ vid))

/-- `CMLEnv.__init__`, restricted to the fields the claims use. -/
def mkEnv (root : String) (e : ConfigEntry) : CMLEnv :=
  let v := e.version.getD ""
  ⟨v, e.path.getD (root ++ "/caelus-" ++ v)⟩

/-- External inputs of the version manager: the configured version
list, the default-version selector, the file system, and the glob
result used by `discover_versions`. -/
structure CmlWorld where
  configVersions : List ConfigEntry
  defaultVersion : String
  fsExists : String → Bool
  caelusRoot : String
  globCaelusDirs : List String

/-- Observable outcome of one `_init_cml_versions` run: the updated
registry, whether the "no valid versions" warning was logged, and
whether `discover_versions` was called. -/
structure InitOutcome where
  registry : List (String × CMLEnv)
  warned : Bool
  discoverCalled : Bool

/-- `_init_cml_versions`: with a non-empty configured list, filter it
(warning when everything is filtered away) and insert the survivors;
with an empty configured list, insert the discovered entries.  Note
that the filtered-to-empty branch does NOT call `discover_versions`
despite its warning text. -/
def initCmlVersions (w : CmlWorld) (reg : List (String × CMLEnv)) :
    InitOutcome :=
  if w.configVersions.isEmpty = false then
    let filtered :=
      filterInvalidVersions w.fsExists w.caelusRoot w.configVersions
    { registry := filtered.foldl
        (fun r e => assocSet r (mkEnv w.caelusRoot e).version
          (mkEnv w.caelusRoot e)) reg,
      warned := filtered.isEmpty,
      discoverCalled := false }
  else
    { registry := (discoverVersions w.globCaelusDirs).foldl
        (fun r e => assocSet r (mkEnv w.caelusRoot e).version
          (mkEnv w.caelusRoot e)) reg,
      warned := false,
      discoverCalled := true }

/-! ### `LooseVersion` ordering

`distutils.version.LooseVersion` splits a version string into
components and compares them as Python lists.  For ids made of digit
runs separated by dots — the only shape the ordering claims quantify
over — the components are exactly the numeric runs, compared
component-wise; `looseParse` is faithful for those ids (mixed
numeric/alphabetic components would raise `TypeError` in Python 3 and
are excluded by hypothesis in every ordering theorem). -/

/-- `int(component)` when the component is a non-empty digit run. -/
def natOfDigits? (l : List Char) : Option Nat :=
  if l ≠ [] ∧ l.all (fun c => c.isDigit) then
    some (l.foldl (fun n c => n * 10 + (c.toNat - 48)) 0)
  else none

/-- Numeric components of a dotted version id. -/
def looseParse (s : String) : List Nat :=
  (splitOnChar '.' s.toList).filterMap natOfDigits?

/-- Python list comparison on numeric component lists: first differing
component decides; a strict prefix is smaller. -/
def natListLt : List Nat → List Nat → Bool
  | [], [] => false
  | [], _ :: _ => true
  | _ :: _, [] => false
  | a :: as, b :: bs =>
    if a < b then true else if b < a then false else natListLt as bs

/-- `LooseVersion(a) < LooseVersion(b)` on registry keys. -/
def ltKey (a b : String) : Bool :=
  natListLt (looseParse a) (looseParse b)

/-- Insert into a descending-sorted list, after equals (this is the
stable behavior of `sorted(..., reverse=True)`). -/
def insertDesc (lt : α → α → Bool) (x : α) : List α → List α
  | [] => [x]
  | y :: ys => if lt y x then x :: y :: ys else y :: insertDesc lt x ys

/-- Stable descending sort (`sorted(vkeys, reverse=True)`). -/
def sortDesc (lt : α → α → Bool) (l : List α) : List α :=
  l.foldl (fun acc x => insertDesc lt x acc) []

/-- Keys of a dotted-numeric shape, for which `looseParse` is an exact
model of `LooseVersion`. -/
def isDottedNumeric (s : String) : Bool :=
  s.toList.all fun c => c.isDigit || c == '.'

/-! ### The closure state of `_cml_env_mgr` -/

/-- The mutable closure state: `cml_versions` and `did_init[0]`. -/
structure MgrState where
  registry : List (String × CMLEnv)
  didInit : Bool
deriving DecidableEq

/-- Errors raised by the accessors: `RuntimeError` for the empty
registry, `IndexError` from `vlist[0]` on an empty key list, `KeyError`
from the final registry lookup, and `KeyError("Invalid CML version
requested")` for an unknown id. -/
inductive MgrErr where
  | emptyRegistry
  | indexError
  | keyError
  | unknownVersion
deriving DecidableEq

/-- Outcome of one accessor call: the updated closure state, the
returned environment or raised error, and how many times
`_init_cml_versions` ran during the call. -/
structure AccessResult where
  state : MgrState
  result : Except MgrErr CMLEnv
  initCount : Nat

/-- `_get_latest_version`: raise when the registry is empty after a
prior init attempt; otherwise re-run `_init_cml_versions`, sort the
keys descending by `LooseVersion` and return the environment of the top
key.  The `keyError` arm is unreachable because the top key is drawn
from the registry itself. -/
def getLatest (w : CmlWorld) (s : MgrState) : AccessResult :=
  if s.registry.isEmpty && s.didInit then
    ⟨s, .error .emptyRegistry, 0⟩
  else
    let out := initCmlVersions w s.registry
    let s' : MgrState := ⟨out.registry, true⟩
    match sortDesc ltKey (s'.registry.map Prod.fst) with
    | [] => ⟨s', .error .indexError, 1⟩
    | k :: _ =>
      match assocGet? s'.registry k with
      | some env => ⟨s', .ok env, 1⟩
      | none => ⟨s', .error .keyError, 1⟩

/-- `_get_version`: same guard and re-init; the requested id (or the
configured default when the request is absent or empty) selects either
a delegation to `_get_latest_version` (`"latest"`) or a registry
lookup that raises `KeyError("Invalid CML version requested")` when the
id is absent. -/
def getVersion (w : CmlWorld) (version : Option String) (s : MgrState) :
    AccessResult :=
  if s.registry.isEmpty && s.didInit then
    ⟨s, .error .emptyRegistry, 0⟩
  else
    let out := initCmlVersions w s.registry
    let s' : MgrState := ⟨out.registry, true⟩
    let vreq := version.getD ""
    let vkey := if vreq = "" then w.defaultVersion else vreq
    if vkey = "latest" then
      let inner := getLatest w s'
      ⟨inner.state, inner.result, 1 + inner.initCount⟩
    else
      match assocGet? s'.registry vkey with
      | some env => ⟨s', .ok env, 1⟩
      | none => ⟨s', .error .unknownVersion, 1⟩

/-- A world whose initialization adds nothing: no configured versions
and no discoverable installation directories. -/
def quietWorld : CmlWorld :=
  ⟨[], "", fun _ => false, "/home/user/Caelus", []⟩

/-! ### Properties of the descending sort -/

theorem mem_insertDesc (lt : α → α → Bool) (x a : α) (l : List α) :
    a ∈ insertDesc lt x l ↔ a = x ∨ a ∈ l := by
  induction l with
  | nil => simp [insertDesc]
  | cons y ys ih =>
    by_cases h : lt y x = true
    · simp only [insertDesc, if_pos h, List.mem_cons]
    · simp only [insertDesc, if_neg h, List.mem_cons, ih]
      tauto

theorem mem_sortDesc_aux (lt : α → α → Bool) (l acc : List α) (a : α) :
    a ∈ l.foldl (fun acc x => insertDesc lt x acc) acc ↔
      a ∈ acc ∨ a ∈ l := by
  induction l generalizing acc with
  | nil => simp
  | cons x xs ih =>
    simp only [List.foldl_cons, ih, mem_insertDesc, List.mem_cons]
    tauto

theorem mem_sortDesc (lt : α → α → Bool) (l : List α) (a : α) :
    a ∈ sortDesc lt l ↔ a ∈ l := by
  simp [sortDesc, mem_sortDesc_aux]

theorem pairwise_insertDesc (lt : α → α → Bool)
    (htrans : ∀ a b c, lt a b = true → lt b c = true → lt a c = true)
    (hasymm : ∀ a b, lt a b = true → lt b a = false)
    (x : α) (l : List α)
    (h : l.Pairwise fun a b => lt a b = false) :
    (insertDesc lt x l).Pairwise fun a b => lt a b = false := by
  induction l with
  | nil => simp [insertDesc]
  | cons y ys ih =>
    rcases List.pairwise_cons.mp h with ⟨hy, hys⟩
    by_cases hl : lt y x = true
    · rw [insertDesc, if_pos hl]
      refine List.Pairwise.cons ?_ h
      intro z hz
      rcases List.mem_cons.mp hz with rfl | hz
      · exact hasymm z x hl
      · cases hb : lt x z with
        | false => rfl
        | true =>
          have hyz := htrans y x z hl hb
          rw [hy z hz] at hyz
          exact Bool.noConfusion hyz
    · rw [insertDesc, if_neg hl]
      refine List.Pairwise.cons ?_ (ih hys)
      intro z hz
      rcases (mem_insertDesc lt x z ys).mp hz with rfl | hz
      · exact Bool.eq_false_iff.mpr hl
      · exact hy z hz

theorem pairwise_sortDesc_aux (lt : α → α → Bool)
    (htrans : ∀ a b c, lt a b = true → lt b c = true → lt a c = true)
    (hasymm : ∀ a b, lt a b = true → lt b a = false)
    (l acc : List α)
    (hacc : acc.Pairwise fun a b => lt a b = false) :
    (l.foldl (fun acc x => insertDesc lt x acc) acc).Pairwise
      fun a b => lt a b = false := by
  induction l generalizing acc with
  | nil => simpa using hacc
  | cons x xs ih =>
    simp only [List.foldl_cons]
    exact ih _ (pairwise_insertDesc lt htrans hasymm x acc hacc)

theorem sortDesc_pairwise (lt : α → α → Bool)
    (htrans : ∀ a b c, lt a b = true → lt b c = true → lt a c = true)
    (hasymm : ∀ a b, lt a b = true → lt b a = false)
    (l : List α) :
    (sortDesc lt l).Pairwise fun a b => lt a b = false :=
  pairwise_sortDesc_aux lt htrans hasymm l [] List.Pairwise.nil

theorem sortDesc_head_max (lt : α → α → Bool)
    (htrans : ∀ a b c, lt a b = true → lt b c = true → lt a c = true)
    (hasymm : ∀ a b, lt a b = true → lt b a = false)
    (hirrefl : ∀ a, lt a a = false)
    (l : List α) (k : α) (rest : List α)
    (hs : sortDesc lt l = k :: rest) :
    k ∈ l ∧ ∀ y ∈ l, lt k y = false := by
  have hk : k ∈ l := by
    rw [← mem_sortDesc lt l k, hs]
    exact List.mem_cons_self _ _
  have hp := sortDesc_pairwise lt htrans hasymm l
  rw [hs] at hp
  rcases List.pairwise_cons.mp hp with ⟨hhead, _⟩
  refine ⟨hk, fun y hy => ?_⟩
  have hy2 : y ∈ k :: rest := by
    rw [← hs, mem_sortDesc]
    exact hy
  rcases List.mem_cons.mp hy2 with rfl | h
  · exact hirrefl y
  · exact hhead y h

/-! ### Properties of the component-wise comparison -/

theorem natListLt_irrefl (l : List Nat) : natListLt l l = false := by
  induction l with
  | nil => rfl
  | cons a as ih => simp [natListLt, ih]

theorem natListLt_asymm (l1 l2 : List Nat) (h : natListLt l1 l2 = true) :
    natListLt l2 l1 = false := by
  induction l1 generalizing l2 with
  | nil =>
    cases l2 with
    | nil => simp [natListLt] at h
    | cons b bs => rfl
  | cons a as ih =>
    cases l2 with
    | nil => simp [natListLt] at h
    | cons b bs =>
      by_cases hab : a < b
      · have hba : ¬b < a := by omega
        simp [natListLt, hab, hba]
      · by_cases hba : b < a
        · simp [natListLt, hab, hba] at h
        · simp only [natListLt, if_neg hab, if_neg hba] at h
          simp only [natListLt, if_neg hba, if_neg hab]
          exact ih bs h

theorem natListLt_trans (l1 l2 l3 : List Nat)
    (h12 : natListLt l1 l2 = true) (h23 : natListLt l2 l3 = true) :
    natListLt l1 l3 = true := by
  induction l1 generalizing l2 l3 with
  | nil =>
    cases l3 with
    | nil =>
      cases l2 with
      | nil => simp [natListLt] at h12
      | cons b bs => simp [natListLt] at h23
    | cons c cs => rfl
  | cons a as ih =>
    cases l2 with
    | nil => simp [natListLt] at h12
    | cons b bs =>
      cases l3 with
      | nil => simp [natListLt] at h23
      | cons c cs =>
        by_cases hab : a < b
        · by_cases hbc : b < c
          · have hac : a < c := lt_trans hab hbc
            simp [natListLt, hac]
          · by_cases hcb : c < b
            · simp [natListLt, hbc, hcb] at h23
            · have hbc2 : b = c := by omega
              subst hbc2
              simp [natListLt, hab]
        · by_cases hba : b < a
          · simp [natListLt, hab, hba] at h12
          · have hab2 : a = b := by omega
            subst hab2
            simp only [natListLt, if_neg hab, if_neg hba] at h12
            by_cases hac : a < c
            · simp [natListLt, hac]
            · by_cases hca : c < a
              · simp [natListLt, hac, hca] at h23
              · have hac2 : a = c := by omega
                subst hac2
                simp only [natListLt, if_neg hac, if_neg hca] at h23 ⊢
                exact ih bs cs h12 h23

theorem ltKey_trans (a b c : String) (h1 : ltKey a b = true)
    (h2 : ltKey b c = true) : ltKey a c = true :=
  natListLt_trans _ _ _ h1 h2

theorem ltKey_asymm (a b : String) (h : ltKey a b = true) :
    ltKey b a = false :=
  natListLt_asymm _ _ h

theorem ltKey_irrefl (a : String) : ltKey a a = false :=
  natListLt_irrefl _

/-! ### Platform build-directory search (`_determine_platform_dir`) -/

/-- `arch_types = ['64', '32']`. -/
def archTypes : List String := ["64", "32"]

/-- `compilers = ['g++', 'icpc', 'clang++']`. -/
def compilers : List String := ["g++", "icpc", "clang++"]

/-- `prec_types = ['DP', 'SP']`. -/
def precTypes : List String := ["DP", "SP"]

/-- `opt_types = ['Opt', 'Prof', 'Debug']`. -/
def optTypes : List String := ["Opt", "Prof", "Debug"]

/-- Concatenation of a list of lists (the flattening performed by
`itertools.product` iteration order). -/
def concatAll : List (List α) → List α
  | [] => []
  | l :: ls => l ++ concatAll ls

/-- The candidate directory names in the order generated by
`itertools.product(arch_types, prec_types, opt_types, compilers)` with
the name formatted as `<os><arch><compiler><precision><opt>`. -/
def buildCandidates (ostype : String) : List String :=
  concatAll (archTypes.map fun a =>
    concatAll (precTypes.map fun p =>
      concatAll (optTypes.map fun o =>
        compilers.map fun c => ostype ++ a ++ c ++ p ++ o)))

/-- `_determine_platform_dir`: `None` when `platforms` does not exist,
else the first candidate path that exists (falling off the loop yields
`None`). -/
def determinePlatformDir (fsExists : String → Bool)
    (rootPath ostype : String) : Option String :=
  let basepath := rootPath ++ "/platforms"
  if fsExists basepath = false then none
  else
    ((buildCandidates ostype).find? fun b =>
        fsExists (basepath ++ "/" ++ b)).map
      fun b => basepath ++ "/" ++ b

theorem find?_eq_some_split (p : α → Bool) (l : List α) (x : α)
    (h : l.find? p = some x) :
    ∃ l1 l2, l = l1 ++ x :: l2 ∧ (∀ y ∈ l1, p y = false) ∧ p x = true := by
  induction l with
  | nil => simp [List.find?] at h
  | cons a as ih =>
    cases hp : p a with
    | true =>
      simp only [List.find?, hp] at h
      obtain rfl : a = x := Option.some.inj h
      exact ⟨[], as, rfl, by simp, hp⟩
    | false =>
      simp only [List.find?, hp] at h
      obtain ⟨l1, l2, he, hall, hx⟩ := ih h
      refine ⟨a :: l1, l2, by rw [he]; rfl, ?_, hx⟩
      intro y hy
      rcases List.mem_cons.mp hy with rfl | hy
      · exact hp
      · exact hall y hy

theorem find?_isSome_of_mem (p : α → Bool) (l : List α) (x : α)
    (hx : x ∈ l) (hp : p x = true) : ∃ y, l.find? p = some y := by
  induction l with
  | nil => simp at hx
  | cons a as ih =>
    cases hpa : p a with
    | true => exact ⟨a, by simp [List.find?, hpa]⟩
    | false =>
      rcases List.mem_cons.mp hx with rfl | hx2
      · rw [hp] at hpa
        exact Bool.noConfusion hpa
      · obtain ⟨y, hy⟩ := ih hx2
        exact ⟨y, by simp [List.find?, hpa, hy]⟩

/-! ## Claims about the version/environment resolver -/

/-- Input exhibiting the C1 bug: one configured entry whose directory
does not exist anywhere on disk, while the discovery glob would find an
installed `caelus-2.0`. -/
def c1World : CmlWorld :=
  ⟨[⟨some "1.0", none⟩], "", fun _ => false, "/home/user/Caelus",
   ["/home/user/Caelus/caelus-2.0"]⟩

/-- C1 (code bug): when the configured version list is non-empty but
filtering removes every entry, `_init_cml_versions` logs the warning
("… Attempting to discover installed versions.") yet never calls
`discover_versions`, leaving the registry empty — even though discovery
would have produced an entry for the installed `caelus-2.0`. -/
theorem c1_no_discover_fallback :
    (initCmlVersions c1World []).warned = true ∧
    (initCmlVersions c1World []).discoverCalled = false ∧
    (initCmlVersions c1World []).registry = [] ∧
    discoverVersions c1World.globCaelusDirs =
      [⟨some "2.0", some "/home/user/Caelus/caelus-2.0"⟩] :=
  ⟨rfl, rfl, rfl, rfl⟩

/-- Helper: `_init_cml_versions` runs zero times exactly on the
raise path of `_get_latest_version`, once otherwise. -/
theorem getLatest_initCount (w : CmlWorld) (s : MgrState) :
    (getLatest w s).initCount =
      if (s.registry.isEmpty && s.didInit) = true then 0 else 1 := by
  by_cases h : (s.registry.isEmpty && s.didInit) = true
  · simp [getLatest, h]
  · rw [if_neg h]
    simp only [getLatest, if_neg h]
    split
    · rfl
    · split
      · rfl
      · rfl

/-- Helper: same zero/positive split for `_get_version`. -/
theorem getVersion_initCount_zero (w : CmlWorld) (ver : Option String)
    (s : MgrState) :
    (getVersion w ver s).initCount = 0 ↔
      (s.registry.isEmpty && s.didInit) = true := by
  by_cases h : (s.registry.isEmpty && s.didInit) = true
  · simp [getVersion, h]
  · refine iff_of_false ?_ h
    simp only [getVersion, if_neg h]
    by_cases hl :
        (if (ver.getD "") = "" then w.defaultVersion else ver.getD "")
          = "latest"
    · rw [if_pos hl]
      intro hc
      simp at hc
    · rw [if_neg hl]
      intro hc
      split at hc
      · simp at hc
      · simp at hc

/-- Reachable state on which the C3 claim fails: the first access
populates the registry (non-empty), and the second access nevertheless
re-runs the population step (`initCount = 1`, where the claim requires
no re-run). -/
def c3World : CmlWorld :=
  ⟨[], "", fun _ => false, "/home/user/Caelus",
   ["/home/user/Caelus/caelus-1.0"]⟩

/-- C3 counterexample: after a first `resolveLatest` access that leaves
the registry non-empty, the very next access runs
`_init_cml_versions` again — the population step is not run at most
once. -/
theorem c3_counterexample :
    (getLatest c3World ⟨[], false⟩).state.registry ≠ [] ∧
    (getLatest c3World (getLatest c3World ⟨[], false⟩).state).initCount
      = 1 := by
  exact ⟨by decide, rfl⟩

/-- C3 (amended): the population step re-runs on every access through
`resolveLatest` or `resolve`, except when the registry is empty after a
prior attempt, in which case the access fails without re-attempting
population (`initCount = 0` exactly on that raise path). -/
theorem c3_amended_reinit_each_access (w : CmlWorld) (ver : Option String)
    (s : MgrState) :
    ((getLatest w s).initCount = 0 ↔
       (s.registry.isEmpty && s.didInit) = true) ∧
    ((getVersion w ver s).initCount = 0 ↔
       (s.registry.isEmpty && s.didInit) = true) := by
  constructor
  · rw [getLatest_initCount]
    by_cases h : (s.registry.isEmpty && s.didInit) = true
    · simp [h]
    · simp [h]
  · exact getVersion_initCount_zero w ver s

/-- C4 counterexample: the very first `resolveLatest` access on an
empty registry whose initialization yields nothing fails with
`IndexError` (from `vlist[0]` on the empty sorted key list), not with
the `EmptyRegistry` error the claim requires. -/
theorem c4_counterexample :
    (getLatest quietWorld ⟨[], false⟩).result = .error .indexError ∧
    (Except.error MgrErr.indexError : Except MgrErr CMLEnv)
      ≠ .error .emptyRegistry := by
  refine ⟨rfl, ?_⟩
  intro h
  exact MgrErr.noConfusion (Except.error.inj h)

/-- C4 (amended): with the registry empty after a prior initialization
attempt, both accessors fail with `EmptyRegistry`; but on the very
first such access (no prior attempt, initialization yields nothing)
`resolveLatest` fails with `IndexError` and `resolve` of a named
version with `UnknownVersion` instead. -/
theorem c4_amended_empty_registry_errors (w : CmlWorld) (s : MgrState)
    (v : String) (hreg : s.registry = []) :
    (s.didInit = true →
       (getLatest w s).result = .error .emptyRegistry ∧
       (getVersion w (some v) s).result = .error .emptyRegistry) ∧
    (s.didInit = false → (initCmlVersions w []).registry = [] →
       (getLatest w s).result = .error .indexError ∧
       (v ≠ "latest" → v ≠ "" →
          (getVersion w (some v) s).result = .error .unknownVersion)) := by
  obtain ⟨reg, di⟩ := s
  simp only at hreg
  subst hreg
  constructor
  · intro hdi
    subst hdi
    exact ⟨rfl, rfl⟩
  · intro hdi hinit
    subst hdi
    constructor
    · simp [getLatest, hinit, sortDesc]
    · intro hv hv2
      simp [getVersion, hinit, hv, hv2, assocGet?]

theorem c4_witness :
    (getLatest quietWorld ⟨[], true⟩).result = .error .emptyRegistry ∧
    (getVersion quietWorld (some "2.0") ⟨[], true⟩).result
      = .error .emptyRegistry ∧
    (getLatest quietWorld ⟨[], false⟩).result = .error .indexError ∧
    (getVersion quietWorld (some "2.0") ⟨[], false⟩).result
      = .error .unknownVersion := by
  obtain ⟨h1, h2⟩ :=
    (c4_amended_empty_registry_errors quietWorld ⟨[], true⟩ "2.0" rfl).1 rfl
  obtain ⟨h3, h4⟩ :=
    (c4_amended_empty_registry_errors quietWorld ⟨[], false⟩ "2.0" rfl).2
      rfl rfl
  exact ⟨h1, h2, h3, h4 (by decide) (by decide)⟩

/-- Helper: the returned environment on the non-raising path of
`_get_latest_version`, given the sorted key list and the lookup of its
head. -/
theorem getLatest_result_of_sorted (w : CmlWorld) (s : MgrState)
    (hguard : (s.registry.isEmpty && s.didInit) = false)
    (k : String) (rest : List String) (env : CMLEnv)
    (hs : sortDesc ltKey
        ((initCmlVersions w s.registry).registry.map Prod.fst) = k :: rest)
    (henv : assocGet? (initCmlVersions w s.registry).registry k = some env) :
    (getLatest w s).result = .ok env := by
  have h2 : ¬((s.registry.isEmpty && s.didInit) = true) := by
    rw [hguard]
    simp
  simp only [getLatest, if_neg h2]
  rw [hs]
  simp [henv]

/-- Demo environment for the version-ordering claim. -/
def demoEnv (v : String) : CMLEnv :=
  ⟨v, "/home/user/Caelus/caelus-" ++ v⟩

/-- Registry with exactly the ids of the C6 claim. -/
def demoRegistry : List (String × CMLEnv) :=
  [("4.10", demoEnv "4.10"), ("5.0", demoEnv "5.0"),
   ("42.0", demoEnv "42.0")]

/-- C6: `resolveLatest` orders the registry keys by dotted/numeric
version comparison (component-wise numeric, not lexical) descending and
returns the environment of the top key; in particular, for a registry
containing exactly the ids `"4.10"`, `"5.0"` and `"42.0"`, it returns
the environment registered under `"42.0"`.  The dotted-numeric
hypothesis marks the fragment on which `looseParse` is an exact model
of `LooseVersion`. -/
theorem c6_resolve_latest_max (reg : List (String × CMLEnv))
    (hne : reg ≠ [])
    (hkeys : ∀ k ∈ reg.map Prod.fst, isDottedNumeric k = true) :
    (∃ k env, assocGet? reg k = some env ∧
       (getLatest quietWorld ⟨reg, false⟩).result = .ok env ∧
       ∀ q ∈ reg.map Prod.fst, ltKey k q = false) ∧
    (getLatest quietWorld ⟨demoRegistry, false⟩).result
      = .ok (demoEnv "42.0") := by
  constructor
  · have hinit : initCmlVersions quietWorld reg = ⟨reg, false, true⟩ := rfl
    obtain ⟨k, rest, hs⟩ :
        ∃ k rest, sortDesc ltKey (reg.map Prod.fst) = k :: rest := by
      cases hsd : sortDesc ltKey (reg.map Prod.fst) with
      | cons k rest => exact ⟨k, rest, rfl⟩
      | nil =>
        exfalso
        cases reg with
        | nil => exact hne rfl
        | cons q qs =>
          have hm : q.1 ∈ sortDesc ltKey ((q :: qs).map Prod.fst) := by
            rw [mem_sortDesc]
            simp
          rw [hsd] at hm
          simp at hm
    obtain ⟨hkmem, hkmax⟩ :=
      sortDesc_head_max ltKey ltKey_trans ltKey_asymm ltKey_irrefl
        (reg.map Prod.fst) k rest hs
    obtain ⟨env, henv⟩ := assocGet?_of_mem_keys reg k hkmem
    refine ⟨k, env, henv, ?_, hkmax⟩
    exact getLatest_result_of_sorted quietWorld ⟨reg, false⟩ (by simp)
      k rest env hs henv
  · rfl

theorem c6_witness :
    ∃ k env, assocGet? demoRegistry k = some env ∧
      (getLatest quietWorld ⟨demoRegistry, false⟩).result = .ok env ∧
      ∀ q ∈ demoRegistry.map Prod.fst, ltKey k q = false :=
  (c6_resolve_latest_max demoRegistry (by decide) (by decide)).1

/-- Filesystem for the C7 witness: only the `platforms` base directory
and the `linux64g++DPOpt` candidate exist. -/
def c7fs : String → Bool := fun p =>
  p == "/opt/caelus/platforms" ||
  p == "/opt/caelus/platforms/linux64g++DPOpt"

/-- C7: build-directory resolution probes the candidates in the exact
nested order — architecture `64, 32` outermost, then precision
`DP, SP`, then optimization `Opt, Prof, Debug`, then compiler
`g++, icpc, clang++` innermost, each named
`platforms/<os><arch><compiler><precision><opt>` — and for every file
system with at least one existing candidate returns the unique earliest
existing one; the concrete conjunct pins the full enumeration order for
`os = "linux"`. -/
theorem c7_platform_probe_order (fsExists : String → Bool)
    (root ostype : String)
    (hbase : fsExists (root ++ "/platforms") = true)
    (hex : ∃ c ∈ buildCandidates ostype,
       fsExists (root ++ "/platforms" ++ "/" ++ c) = true) :
    (∃ pre c post, buildCandidates ostype = pre ++ c :: post ∧
       (∀ q ∈ pre, fsExists (root ++ "/platforms" ++ "/" ++ q) = false) ∧
       fsExists (root ++ "/platforms" ++ "/" ++ c) = true ∧
       determinePlatformDir fsExists root ostype
         = some (root ++ "/platforms" ++ "/" ++ c)) ∧
    buildCandidates "linux" =
      ["linux64g++DPOpt", "linux64icpcDPOpt", "linux64clang++DPOpt",
       "linux64g++DPProf", "linux64icpcDPProf", "linux64clang++DPProf",
       "linux64g++DPDebug", "linux64icpcDPDebug", "linux64clang++DPDebug",
       "linux64g++SPOpt", "linux64icpcSPOpt", "linux64clang++SPOpt",
       "linux64g++SPProf", "linux64icpcSPProf", "linux64clang++SPProf",
       "linux64g++SPDebug", "linux64icpcSPDebug", "linux64clang++SPDebug",
       "linux32g++DPOpt", "linux32icpcDPOpt", "linux32clang++DPOpt",
       "linux32g++DPProf", "linux32icpcDPProf", "linux32clang++DPProf",
       "linux32g++DPDebug", "linux32icpcDPDebug", "linux32clang++DPDebug",
       "linux32g++SPOpt", "linux32icpcSPOpt", "linux32clang++SPOpt",
       "linux32g++SPProf", "linux32icpcSPProf", "linux32clang++SPProf",
       "linux32g++SPDebug", "linux32icpcSPDebug",
       "linux32clang++SPDebug"] := by
  refine ⟨?_, rfl⟩
  obtain ⟨c0, hc0, hfs0⟩ := hex
  obtain ⟨y, hy⟩ :=
    find?_isSome_of_mem (fun b => fsExists (root ++ "/platforms" ++ "/" ++ b))
      (buildCandidates ostype) c0 hc0 hfs0
  obtain ⟨pre, post, hsplit, hall, hpy⟩ :=
    find?_eq_some_split (fun b => fsExists (root ++ "/platforms" ++ "/" ++ b))
      (buildCandidates ostype) y hy
  refine ⟨pre, y, post, hsplit, hall, hpy, ?_⟩
  simp [determinePlatformDir, hbase, hy]

theorem c7_witness :
    ∃ pre c post, buildCandidates "linux" = pre ++ c :: post ∧
      (∀ q ∈ pre, c7fs ("/opt/caelus" ++ "/platforms" ++ "/" ++ q)
        = false) ∧
      c7fs ("/opt/caelus" ++ "/platforms" ++ "/" ++ c) = true ∧
      determinePlatformDir c7fs "/opt/caelus" "linux"
        = some ("/opt/caelus" ++ "/platforms" ++ "/" ++ c) :=
  (c7_platform_probe_order c7fs "/opt/caelus" "linux" rfl
    ⟨"linux64g++DPOpt", by decide, rfl⟩).1

end Caelus
